import Mathlib

/-!
Verification of the operator-controller CRD upgrade-safety preflight, the
Helm applier's preflight dispatch, and bundle resolution.

Conventions of the embedding:
* Go errors are represented as `String`; `errors.Join` over a slice of
  collected errors is represented by the list of the collected error
  messages, so a `nil` joined error corresponds to the empty list.  The
  per-CRD context wrapping (`fmt.Errorf("...: %w", err)`) is represented by
  prefixing each contained message with the same context text, which keeps
  every individual message present in the joined result exactly as Go's
  rendering of a wrapped joined error does.
* Fallible operations (the CRD client `Get`, `Preflight.Upgrade`) return
  `Except String`.
* Go map iteration order is unspecified; the embedding fixes a
  deterministic order (the construction order of the diff list).  No claim
  below depends on the order of collected errors beyond what the source
  determines.
-/

namespace OperatorController

/-- Scope of a structured definition (CRD): Namespaced or Cluster. -/
inductive Scope where
  | namespaced
  | cluster
  deriving DecidableEq, Repr

/-- Attributes a schema node may carry (spec section 3, VersionSchema).
Modelled from the spec: the concrete schema node type lives in the external
apiextensions library; the spec lists exactly these per-node attributes.
All numeric bounds are modelled as integers. -/
structure SchemaAttrs where
  typ : String
  enum : List String
  default : Option String
  minimum : Option Int
  maximum : Option Int
  minLength : Option Int
  maxLength : Option Int
  minItems : Option Int
  maxItems : Option Int
  minProperties : Option Int
  maxProperties : Option Int
  deriving DecidableEq, Repr

mutual
/-- Modelled from the spec: recursive schema tree (section 3): each node
carries the attribute bag, the names of its required children, an
association list of named child properties and an optional array item
schema.  The property list and the optional item child are encoded as the
mutual inductives `SchemaProps` and `SchemaItems` (isomorphic to
`List (String × Schema)` and `Option Schema`) so that structural recursion
applies. -/
inductive Schema where
  | node (attrs : SchemaAttrs) (required : List String) (properties : SchemaProps)
      (items : SchemaItems)

/-- Named child properties of a schema node, in declaration order. -/
inductive SchemaProps where
  | nil
  | cons (name : String) (child : Schema) (rest : SchemaProps)

/-- Optional array item schema of a schema node. -/
inductive SchemaItems where
  | noItems
  | withItems (child : Schema)
end

/-- A flattened field descriptor: the node's attributes plus whether the
field is listed as required by its parent (spec section 3, FieldDescriptor). -/
structure FieldDescriptor where
  attrs : SchemaAttrs
  requiredInParent : Bool
  deriving DecidableEq, Repr

/-- A flattened schema: mapping from field path to field descriptor,
represented as an association list in emission order. -/
def FlatSchema : Type := List (String × FieldDescriptor)

instance : DecidableEq FlatSchema := by
  unfold FlatSchema
  infer_instance

instance : Membership (String × FieldDescriptor) FlatSchema := by
  unfold FlatSchema
  infer_instance

instance : Append FlatSchema := by
  unfold FlatSchema
  infer_instance

mutual
/-- Modelled from the spec: the schema flattener (section 4.1).  Depth
first walk; every node is emitted at its path, child properties are
emitted at `parent.child` with `requiredInParent` looked up in the
parent's required list, array items at `parent[]`. -/
def flattenAux (path : String) (reqInParent : Bool) : Schema → List (String × FieldDescriptor)
  | .node attrs required props items =>
    (path, ⟨attrs, reqInParent⟩) ::
      (flattenProps path required props ++ flattenItems path items)

/-- Flattening of the child properties of a node at `path`. -/
def flattenProps (path : String) (required : List String) :
    SchemaProps → List (String × FieldDescriptor)
  | .nil => []
  | .cons n c rest =>
    flattenAux (path ++ "." ++ n) (required.contains n) c ++ flattenProps path required rest

/-- Flattening of the array item schema of a node at `path`. -/
def flattenItems (path : String) : SchemaItems → List (String × FieldDescriptor)
  | .noItems => []
  | .withItems c => flattenAux (path ++ "[]") false c
end

/-- Modelled from the spec: `Flatten(schema) -> FlatSchema` (section 4.1);
the root node is emitted under the path `^`. -/
def FlattenSchema (s : Schema) : FlatSchema := flattenAux "^" false s

/-- First value bound to key `k` in an association list. -/
def findVal (k : String) : List (String × FieldDescriptor) → Option FieldDescriptor
  | [] => none
  | (k2, d) :: rest => if k2 = k then some d else findVal k rest

/-- Key list with duplicates removed, keeping first occurrences. -/
def dedupKeys (seen : List String) : List String → List String
  | [] => []
  | k :: rest =>
    if seen.contains k then dedupKeys seen rest else k :: dedupKeys (k :: seen) rest

/-- The union of the key sets of two flat schemas, first-occurrence order. -/
def unionKeys (o n : FlatSchema) : List String :=
  dedupKeys [] (o.map Prod.fst ++ n.map Prod.fst)

/-- A per-field change: the old descriptor (`none` if the field did not
exist before) and the new one (`none` if removed). -/
structure FieldDiff where
  old : Option FieldDescriptor
  new : Option FieldDescriptor
  deriving DecidableEq, Repr

/-- Modelled from the spec: the schema differ core (section 4.2): over the
union of both key sets, emit a `FieldDiff` for every key whose sides
differ, carrying whichever side(s) are present. -/
def diffCore (o n : FlatSchema) : List (String × FieldDiff) :=
  (unionKeys o n).filterMap (fun k =>
    if findVal k o = findVal k n then none else some (k, ⟨findVal k o, findVal k n⟩))

/-- Modelled from the spec: `CalculateFlatSchemaDiff` (section 4.2).  The
spec's only failure mode (a key with an empty descriptor on both sides)
cannot arise in this typed embedding, so the result is always `ok`; the
`Except` shape is kept because the caller in the source handles the error
branch. -/
def CalculateFlatSchemaDiff (o n : FlatSchema) : Except String (List (String × FieldDiff)) :=
  .ok (diffCore o n)

/-- A change rule: examines one `FieldDiff` and returns
`(Handled, Err)` — the `ValidationOutcome` of spec section 3. -/
def ChangeValidation : Type := FieldDiff → Bool × Option String

/-- Modelled from the spec: enum rule (section 4.4).  Handles any enum
change; safe only if the old enum was non-empty (empty means
unrestricted) and every old value is still allowed. -/
def EnumChangeValidation : ChangeValidation := fun d =>
  match d.old, d.new with
  | some o, some n =>
    if o.attrs.enum = n.attrs.enum then (false, none)
    else
      (true,
        if !o.attrs.enum.isEmpty && o.attrs.enum.all (fun v => n.attrs.enum.contains v) then
          none
        else some "enum values were restricted")
  | _, _ => (false, none)

/-- Modelled from the spec: required-field rule (section 4.4).  Handles a
change of `requiredInParent`; required to optional is safe, optional to
required is unsafe unless the new descriptor carries a default. -/
def RequiredFieldChangeValidation : ChangeValidation := fun d =>
  match d.old, d.new with
  | some o, some n =>
    if o.requiredInParent = n.requiredInParent then (false, none)
    else if n.requiredInParent then
      (true, if n.attrs.default.isSome then none else some "field became required")
    else (true, none)
  | _, _ => (false, none)

/-- Modelled from the spec: upper-bound relaxation rule scheme
(section 4.4): handles a change of the selected upper bound; safe only if
the new bound is absent, or the old bound was present and is at most the
new one. -/
def maxBoundRule (get : SchemaAttrs → Option Int) (msg : String) : ChangeValidation := fun d =>
  match d.old, d.new with
  | some o, some n =>
    if get o.attrs = get n.attrs then (false, none)
    else
      (true,
        match get o.attrs, get n.attrs with
        | _, none => none
        | some ob, some nb => if ob ≤ nb then none else some msg
        | none, some _ => some msg)
  | _, _ => (false, none)

/-- Modelled from the spec: lower-bound relaxation rule scheme
(section 4.4): handles a change of the selected lower bound; safe only if
the new bound is absent, or the old bound was present and is at least the
new one. -/
def minBoundRule (get : SchemaAttrs → Option Int) (msg : String) : ChangeValidation := fun d =>
  match d.old, d.new with
  | some o, some n =>
    if get o.attrs = get n.attrs then (false, none)
    else
      (true,
        match get o.attrs, get n.attrs with
        | _, none => none
        | some ob, some nb => if nb ≤ ob then none else some msg
        | none, some _ => some msg)
  | _, _ => (false, none)

/-- Modelled from the spec: maximum rule. -/
def MaximumChangeValidation : ChangeValidation :=
  maxBoundRule (fun a => a.maximum) "maximum constraint tightened"

/-- Modelled from the spec: maximum-items rule. -/
def MaximumItemsChangeValidation : ChangeValidation :=
  maxBoundRule (fun a => a.maxItems) "maxItems constraint tightened"

/-- Modelled from the spec: maximum-length rule. -/
def MaximumLengthChangeValidation : ChangeValidation :=
  maxBoundRule (fun a => a.maxLength) "maxLength constraint tightened"

/-- Modelled from the spec: maximum-properties rule. -/
def MaximumPropertiesChangeValidation : ChangeValidation :=
  maxBoundRule (fun a => a.maxProperties) "maxProperties constraint tightened"

/-- Modelled from the spec: minimum rule. -/
def MinimumChangeValidation : ChangeValidation :=
  minBoundRule (fun a => a.minimum) "minimum constraint tightened"

/-- Modelled from the spec: minimum-items rule. -/
def MinimumItemsChangeValidation : ChangeValidation :=
  minBoundRule (fun a => a.minItems) "minItems constraint tightened"

/-- Modelled from the spec: minimum-length rule. -/
def MinimumLengthChangeValidation : ChangeValidation :=
  minBoundRule (fun a => a.minLength) "minLength constraint tightened"

/-- Modelled from the spec: minimum-properties rule. -/
def MinimumPropertiesChangeValidation : ChangeValidation :=
  minBoundRule (fun a => a.minProperties) "minProperties constraint tightened"

/-- Modelled from the spec: default-value rule (section 4.4): handles any
default change; adding a default where none existed is safe, changing or
removing an existing default is unsafe. -/
def DefaultValueChangeValidation : ChangeValidation := fun d =>
  match d.old, d.new with
  | some o, some n =>
    if o.attrs.default = n.attrs.default then (false, none)
    else
      (true,
        match o.attrs.default with
        | none => none
        | some _ => some "default value changed or removed")
  | _, _ => (false, none)

/-- The fixed, declared change-rule order of `NewPreflight`
(src/unnamed/part_000, lines 42-57 and 59-73): Enum, RequiredField,
Maximum, MaximumItems, MaximumLength, MaximumProperties, Minimum,
MinimumItems, MinimumLength, MinimumProperties, DefaultValue. -/
def defaultChangeValidations : List ChangeValidation :=
  [EnumChangeValidation,
   RequiredFieldChangeValidation,
   MaximumChangeValidation,
   MaximumItemsChangeValidation,
   MaximumLengthChangeValidation,
   MaximumPropertiesChangeValidation,
   MinimumChangeValidation,
   MinimumItemsChangeValidation,
   MinimumLengthChangeValidation,
   MinimumPropertiesChangeValidation,
   DefaultValueChangeValidation]

/-- The inner rule loop of `crossVersionValidator.Validate`
(src/unnamed/part_000, lines 155-166): rules are tried in list order; a
non-nil error of a tried rule is collected; the first rule returning
`Handled=true` stops the loop.  Returns the collected rule errors and
whether some rule handled the diff. -/
def runChangeValidations : List ChangeValidation → FieldDiff → List String × Bool
  | [], _ => ([], false)
  | v :: rest, d =>
    let r := v d
    let here := match r.2 with
      | some e => [e]
      | none => []
    if r.1 then (here, true)
    else
      let rec2 := runChangeValidations rest d
      (here ++ rec2.1, rec2.2)

/-- The errors contributed by a list of rules none of which stops the
loop: each rule's non-nil error, in order. -/
def collectRuleErrs (rules : List ChangeValidation) (d : FieldDiff) : List String :=
  rules.flatMap (fun u => ((u d).2).toList)

/-- One declared version of a structured definition: its name and schema. -/
structure VersionSchema where
  name : String
  schema : Schema

/-- A structured definition (CRD): name, scope, declared versions and the
stored version names (spec section 3). -/
structure StructuredDefinition where
  name : String
  scope : Scope
  versions : List VersionSchema
  storedVersions : List String

/-- The unknown-change error of `crossVersionValidator.Validate`
(src/unnamed/part_000, line 169): names the two compared versions and the
field path, refusing to determine that the change is safe. -/
def unknownChangeErr (a b field : String) : String :=
  "version \"" ++ a ++ "\" compared to version \"" ++ b ++ "\", field \"" ++ field ++
    "\" has unknown change, refusing to determine that change is safe"

/-- The rule-error context wrapper of `crossVersionValidator.Validate`
(src/unnamed/part_000, line 160). -/
def fieldCompareErr (a b field e : String) : String :=
  "version \"" ++ a ++ "\" compared to version \"" ++ b ++ "\", field \"" ++ field ++
    "\": " ++ e

/-- The diff-failure error of `crossVersionValidator.Validate`
(src/unnamed/part_000, line 150). -/
def schemaDiffErr (a b : String) : String :=
  "calculating schema diff for CRD version \"" ++ a ++ "\" against CRD version \"" ++
    b ++ "\""

/-- The body of the two nested version loops of
`crossVersionValidator.Validate` (src/unnamed/part_000, lines 137-172):
pairs with equal version names contribute nothing; otherwise both schemas
are flattened and diffed and every field diff runs through the rule loop,
with an unknown-change error when no rule handled it. -/
def crossVersionPairErrors (rules : List ChangeValidation) (vA vB : VersionSchema) :
    List String :=
  if vA.name = vB.name then []
  else
    match CalculateFlatSchemaDiff (FlattenSchema vA.schema) (FlattenSchema vB.schema) with
    | .error _ => [schemaDiffErr vA.name vB.name]
    | .ok diffs =>
      diffs.flatMap (fun fd =>
        let r := runChangeValidations rules fd.2
        r.1.map (fieldCompareErr vA.name vB.name fd.1) ++
          (if r.2 then [] else [unknownChangeErr vA.name vB.name fd.1]))

/-- The cross-version validator: holds the change-rule list
(src/unnamed/part_000, lines 132-134). -/
structure CrossVersionValidator where
  changeValidations : List ChangeValidation

/-- `crossVersionValidator.Validate` (src/unnamed/part_000, lines
136-176): accumulates, over every ordered pair of declared versions, the
pair's errors; the joined error is the accumulated list. -/
def CrossVersionValidator.Validate (cvv : CrossVersionValidator)
    (crd : StructuredDefinition) : List String :=
  crd.versions.foldl (fun errs vA =>
    crd.versions.foldl (fun errs2 vB =>
      errs2 ++ crossVersionPairErrors cvv.changeValidations vA vB) errs) []

/-- The names of the declared versions of a definition. -/
def versionNames (d : StructuredDefinition) : List String :=
  d.versions.map (fun v => v.name)

/-- The first declared version with the given name, if any. -/
def findVersion (d : StructuredDefinition) (name : String) : Option VersionSchema :=
  d.versions.find? (fun v => v.name = name)

/-- Modelled from the spec: structural scope-immutability check
(section 4.3) of the external kapp validator named "NoScopeChange" in
`NewPreflight`. -/
def NoScopeChange (old nw : StructuredDefinition) : List String :=
  if old.scope = nw.scope then [] else ["scope changed"]

/-- Modelled from the spec: structural stored-version-retention check
(section 4.3) of the external kapp validator named "NoStoredVersionRemoved"
in `NewPreflight`: every stored version of the old definition must still be
declared by the new one. -/
def NoStoredVersionRemoved (old nw : StructuredDefinition) : List String :=
  old.storedVersions.filterMap (fun v =>
    if v ∈ versionNames nw then none
    else some ("stored version \"" ++ v ++ "\" removed"))

/-- Modelled from the spec: structural existing-field-retention check
(section 4.3) of the external kapp validator named "NoExistingFieldRemoved"
in `NewPreflight`: for every version declared by both definitions, every
field path of the old flattening must still be present in the new one. -/
def NoExistingFieldRemoved (old nw : StructuredDefinition) : List String :=
  nw.versions.flatMap (fun nv =>
    match findVersion old nv.name with
    | none => []
    | some ov =>
      (FlattenSchema ov.schema).filterMap (fun kd =>
        if (findVal kd.1 (FlattenSchema nv.schema)).isSome then none
        else some ("field \"" ++ kd.1 ++ "\" removed in version \"" ++ nv.name ++ "\"")))

/-- Modelled from the spec: the per-field part of the external kapp
validator (its `ChangeValidator`, listed last in `NewPreflight`): for every
version declared by both definitions, diff the flattenings and run the
change-rule loop over every field diff, with the deny-by-default
unknown-change error (section 4.4). -/
def changeValidatorErrors (rules : List ChangeValidation)
    (old nw : StructuredDefinition) : List String :=
  nw.versions.flatMap (fun nv =>
    match findVersion old nv.name with
    | none => []
    | some ov =>
      match CalculateFlatSchemaDiff (FlattenSchema ov.schema) (FlattenSchema nv.schema) with
      | .error e => [e]
      | .ok diffs =>
        diffs.flatMap (fun fd =>
          let r := runChangeValidations rules fd.2
          r.1 ++
            (if r.2 then []
             else ["field \"" ++ fd.1 ++ "\" of version \"" ++ nv.name ++
               "\" has unknown change, refusing to determine that change is safe"])))

/-- Modelled from the spec: the external kapp `Validator.Validate`
(section 4.5), with the validation list installed by `NewPreflight`
(src/unnamed/part_000, lines 37-58): the three structural checks followed
by the change-rule validator, all failures aggregated, nil only when no
check failed. -/
def Validator.Validate (old nw : StructuredDefinition) : List String :=
  NoScopeChange old nw ++ NoStoredVersionRemoved old nw ++
    NoExistingFieldRemoved old nw ++ changeValidatorErrors defaultChangeValidations old nw

/-- An object decoded from the proposed release manifest: either a
CustomResourceDefinition or an object of some other kind.  Manifest
decoding and the unstructured-to-CRD conversion of `Preflight.Upgrade` are
external (YAML and apimachinery); the embedding works on the decoded,
converted object list. -/
inductive RelObject where
  | nonCrd
  | crd (d : StructuredDefinition)

/-- A proposed Helm release: its name and decoded manifest objects. -/
structure Release where
  name : String
  objects : List RelObject

/-- The fetch-failure error of `Preflight.Upgrade`
(src/unnamed/part_000, line 115). -/
def getCrdErr (name e : String) : String :=
  "getting existing resource for CRD \"" ++ name ++ "\": " ++ e

/-- The errors appended for one CRD of the proposed release
(src/unnamed/part_000, lines 118-126): the (active, proposed) validator
failures and the cross-version failures, each wrapped with the CRD's
name. -/
def perCrdErrors (old nw : StructuredDefinition) : List String :=
  (Validator.Validate old nw).map
      (fun e => "validating upgrade for CRD \"" ++ nw.name ++ "\" failed: " ++ e) ++
    (CrossVersionValidator.Validate ⟨defaultChangeValidations⟩ nw).map
      (fun e => "cross version validation for CRD \"" ++ nw.name ++ "\" failed: " ++ e)

/-- The object loop of `Preflight.Upgrade` (src/unnamed/part_000, lines
94-127): non-CRD objects are skipped; for each CRD the active definition
is fetched — a fetch failure aborts the whole call with a fatal error —
and both validations' failures are accumulated. -/
def upgradeLoop (fetch : String → Except String StructuredDefinition)
    (acc : List String) : List RelObject → Except String (List String)
  | [] => .ok acc
  | .nonCrd :: rest => upgradeLoop fetch acc rest
  | .crd nw :: rest =>
    match fetch nw.name with
    | .error e => .error (getCrdErr nw.name e)
    | .ok old => upgradeLoop fetch (acc ++ perCrdErrors old nw) rest

/-- `Preflight.Upgrade` (src/unnamed/part_000, lines 87-130): a nil
release yields nil immediately; otherwise the object loop runs and the
accumulated validation errors are joined (`.ok []` is the nil joined
error; `.error` is a fatal infrastructure error). -/
def Preflight.Upgrade (fetch : String → Except String StructuredDefinition)
    (rel : Option Release) : Except String (List String) :=
  match rel with
  | none => .ok []
  | some r => upgradeLoop fetch [] r.objects

/-- The CRDs among a list of decoded release objects, in order. -/
def crdsOf : List RelObject → List StructuredDefinition
  | [] => []
  | .nonCrd :: rest => crdsOf rest
  | .crd d :: rest => d :: crdsOf rest

/-- The release state computed by `Helm.getReleaseState`
(src/unnamed/part_001, lines 142-147). -/
inductive ReleaseState where
  | needsInstall
  | needsUpgrade
  | unchanged
  | stateError
  deriving DecidableEq, Repr

/-- The CRD upgrade-safety preflight configuration of a ClusterExtension
(`ext.Spec.Preflight.CRDUpgradeSafety`). -/
structure CRDUpgradeSafetyConfig where
  disabled : Bool

/-- The preflight configuration of a ClusterExtension
(`ext.Spec.Preflight`), `none` when the pointer is nil. -/
structure PreflightConfig where
  crdUpgradeSafety : Option CRDUpgradeSafetyConfig

/-- The part of a ClusterExtension the preflight dispatch consults. -/
structure ClusterExtension where
  preflight : Option PreflightConfig

/-- One configured preflight of the Helm applier, as the dispatch loop
sees it: whether its dynamic type is `*crdupgradesafety.Preflight`, and
the outcome its `Install` and `Upgrade` operations would report when
invoked. -/
structure PreflightCheck where
  isCrdUpgradeSafety : Bool
  installErr : Option String
  upgradeErr : Option String

/-- A preflight operation invoked by the dispatch loop. -/
inductive PreflightOp where
  | install
  | upgrade
  deriving DecidableEq, Repr

/-- The skip condition of the dispatch loop (src/unnamed/part_001, lines
84-90): a preflight is skipped exactly when the extension carries a
preflight configuration, its CRDUpgradeSafety entry is present and
disabled, and the preflight's dynamic type is the CRD upgrade-safety
preflight. -/
def shouldSkipPreflight (ext : ClusterExtension) (p : PreflightCheck) : Bool :=
  match ext.preflight with
  | none => false
  | some cfg =>
    match cfg.crdUpgradeSafety with
    | none => false
    | some c => p.isCrdUpgradeSafety && c.disabled

/-- The preflight dispatch loop of `Helm.Apply` (src/unnamed/part_001,
lines 83-103), with preflights numbered from `i`: skipped preflights are
passed over; in the NeedsInstall state each remaining preflight's Install
runs and a failure aborts `Apply` with that error; likewise Upgrade in the
NeedsUpgrade state; in any other state the loop invokes nothing.  Returns
the invocations performed, in order, and the aborting error if any. -/
def runPreflightsAux (ext : ClusterExtension) (state : ReleaseState) :
    Nat → List PreflightCheck → List (Nat × PreflightOp) × Option String
  | _, [] => ([], none)
  | i, p :: rest =>
    if shouldSkipPreflight ext p then runPreflightsAux ext state (i + 1) rest
    else
      match state with
      | .needsInstall =>
        (match p.installErr with
         | some e => ([(i, .install)], some e)
         | none =>
           let r := runPreflightsAux ext state (i + 1) rest
           ((i, .install) :: r.1, r.2))
      | .needsUpgrade =>
        (match p.upgradeErr with
         | some e => ([(i, .upgrade)], some e)
         | none =>
           let r := runPreflightsAux ext state (i + 1) rest
           ((i, .upgrade) :: r.1, r.2))
      | _ => runPreflightsAux ext state (i + 1) rest

/-- The preflight dispatch loop over the applier's configured preflights,
numbered from zero. -/
def runPreflights (ext : ClusterExtension) (state : ReleaseState)
    (ps : List PreflightCheck) : List (Nat × PreflightOp) × Option String :=
  runPreflightsAux ext state 0 ps

/-- The release action the applier takes after the preflight loop. -/
inductive ApplyAction where
  | install
  | upgrade
  | reconcile
  | unexpectedState
  deriving DecidableEq, Repr

/-- The action switch of `Helm.Apply` after the preflight loop
(src/unnamed/part_001, lines 105-130): install on NeedsInstall, upgrade on
NeedsUpgrade, a direct reconcile of the current release on Unchanged, and
an unexpected-state error otherwise. -/
def applyAction : ReleaseState → ApplyAction
  | .needsInstall => .install
  | .needsUpgrade => .upgrade
  | .unchanged => .reconcile
  | .stateError => .unexpectedState

/-- A catalog bundle, with the fields bundle resolution consults.
Modelled from the spec: the catalogmetadata bundle type is outside the
given sources; versions are modelled as naturals ordered like the semver
versions they stand for. -/
structure Bundle where
  name : String
  package : String
  channels : List String
  version : Nat
  deprecated : Bool
  deriving DecidableEq, Repr

/-- Modelled from the spec: the package-name filter predicate
(`catalogfilter.WithPackageName`). -/
def withPackageName (pkg : String) (b : Bundle) : Bool := b.package = pkg

/-- Modelled from the spec: the channel filter predicate
(`catalogfilter.InChannel`). -/
def inChannel (ch : String) (b : Bundle) : Bool := b.channels.contains ch

/-- Modelled from the spec: the semver-range filter predicate
(`catalogfilter.InMastermindsSemverRange`), over an abstract parsed
range. -/
def inSemverRange (r : Nat → Bool) (b : Bundle) : Bool := r b.version

/-- Modelled from the spec: `catalogsort.ByVersion` — higher versions
first. -/
def byVersion (a b : Bundle) : Bool := decide (b.version ≤ a.version)

/-- Modelled from the spec: `catalogsort.ByDeprecated` — non-deprecated
bundles first. -/
def byDeprecated (a b : Bundle) : Bool := !a.deprecated || b.deprecated

/-- The conjunction of a predicate list (`catalogfilter.And`). -/
def andPredicates (ps : List (Bundle → Bool)) (b : Bundle) : Bool :=
  ps.all (fun p => p b)

/-- `catalogfilter.Filter` over the conjunction of the predicates. -/
def filterBundles (bs : List Bundle) (ps : List (Bundle → Bool)) : List Bundle :=
  bs.filter (andPredicates ps)

/-- The predicate list built by `Resolver.Resolve`
(src/internal/resolution/validations.go, lines 57-82): always the package
name; the channel only when one is specified; the semver range only when
one is specified (given here already parsed); and the successor predicate
when the upgrade-constraint policy and an installed bundle demand it. -/
def resolvePredicates (pkg channel : String) (range : Option (Nat → Bool))
    (successor : Option (Bundle → Bool)) : List (Bundle → Bool) :=
  [withPackageName pkg] ++
    (if channel = "" then [] else [inChannel channel]) ++
    (match range with
     | none => []
     | some r => [inSemverRange r]) ++
    (match successor with
     | none => []
     | some p => [p])

/-- The no-candidate error of `Resolver.Resolve` (lines 101-112),
switching on which filters were specified.  The installed-version prefix
is omitted from the model. -/
def noMatchErr (pkg channel : String) (range : Option (Nat → Bool)) : String :=
  match range, channel with
  | some _, ch =>
    if ch = "" then "no package \"" ++ pkg ++ "\" matching version found"
    else "no package \"" ++ pkg ++ "\" matching version in channel \"" ++ ch ++ "\" found"
  | none, ch =>
    if ch = "" then "no package \"" ++ pkg ++ "\" found"
    else "no package \"" ++ pkg ++ "\" in channel \"" ++ ch ++ "\" found"

/-- The first failing validation of the resolved bundle (lines 122-127). -/
def firstValidationErr : List (Bundle → Option String) → Bundle → Option String
  | [], _ => none
  | v :: rest, b =>
    match v b with
    | some e => some e
    | none => firstValidationErr rest b

/-- `Resolver.Resolve` (src/internal/resolution/validations.go, lines
37-130): filter the candidate bundles through the predicate list, stably
sort by version and then by deprecation status, and take the head; an
empty candidate set is an error (sorting preserves emptiness, so the check
is made on the sorted list), and a failing validation of the resolved
bundle is an error. -/
def Resolver.Resolve (allBundles : List Bundle) (pkg channel : String)
    (range : Option (Nat → Bool)) (successor : Option (Bundle → Bool))
    (validations : List (Bundle → Option String)) : Except String Bundle :=
  let resultSet := filterBundles allBundles (resolvePredicates pkg channel range successor)
  match (resultSet.mergeSort byVersion).mergeSort byDeprecated with
  | [] => .error (noMatchErr pkg channel range)
  | resolved :: _ =>
    match firstValidationErr validations resolved with
    | some e => .error ("validating resolved bundle: " ++ e)
    | none => .ok resolved

/-! ## Helper lemmas -/

/-- A fold that appends `g a` for each element is the accumulator followed
by the flat map of `g`. -/
theorem foldl_append_eq_flatMap {α β : Type} (g : α → List β) :
    ∀ (l : List α) (acc : List β),
      l.foldl (fun es a => es ++ g a) acc = acc ++ l.flatMap g := by
  intro l
  induction l with
  | nil => intro acc; simp
  | cons a rest ih =>
    intro acc
    simp only [List.foldl_cons, ih, List.flatMap_cons, List.append_assoc]

/-- The nested accumulator fold of `CrossVersionValidator.Validate` is the
double flat map over the ordered version pairs. -/
theorem nested_foldl_append_eq_flatMap {α β γ : Type} (g : α → γ → List β) (l2 : List γ) :
    ∀ (l : List α) (acc : List β),
      l.foldl (fun es a => l2.foldl (fun es2 b => es2 ++ g a b) es) acc
        = acc ++ l.flatMap (fun a => l2.flatMap (g a)) := by
  intro l
  induction l with
  | nil => intro acc; simp
  | cons a rest ih =>
    intro acc
    simp only [List.foldl_cons, ih, foldl_append_eq_flatMap, List.flatMap_cons,
      List.append_assoc]

/-- `CrossVersionValidator.Validate` written as a flat map over all
ordered version pairs. -/
theorem crossVersionValidate_eq (cvv : CrossVersionValidator) (crd : StructuredDefinition) :
    CrossVersionValidator.Validate cvv crd
      = crd.versions.flatMap (fun vA =>
          crd.versions.flatMap (fun vB =>
            crossVersionPairErrors cvv.changeValidations vA vB)) := by
  unfold CrossVersionValidator.Validate
  simpa using
    nested_foldl_append_eq_flatMap
      (fun vA vB => crossVersionPairErrors cvv.changeValidations vA vB)
      crd.versions crd.versions []

/-- When no rule in the list handles the diff, the rule loop collects each
rule's error and reports the diff unhandled. -/
theorem runChangeValidations_unhandled (d : FieldDiff) :
    ∀ (rules : List ChangeValidation), (∀ u ∈ rules, (u d).1 = false) →
      runChangeValidations rules d = (collectRuleErrs rules d, false) := by
  intro rules
  induction rules with
  | nil => intro _; rfl
  | cons v rest ih =>
    intro h
    have hv : (v d).1 = false := h v (by simp)
    have hrest := ih (fun u hu => h u (by simp [hu]))
    simp only [runChangeValidations, hv, collectRuleErrs, List.flatMap_cons]
    simp only [collectRuleErrs] at hrest
    simp [hrest]
    cases h2 : (v d).2 <;> simp

/-- The rule loop stops at the first rule that handles the diff: the
result is the errors of the earlier rules followed by the handling rule's
error, independent of every rule after it. -/
theorem runChangeValidations_split (post : List ChangeValidation) (v : ChangeValidation)
    (d : FieldDiff) :
    ∀ (pre : List ChangeValidation), (∀ u ∈ pre, (u d).1 = false) → (v d).1 = true →
      runChangeValidations (pre ++ v :: post) d
        = (collectRuleErrs pre d ++ ((v d).2).toList, true) := by
  intro pre
  induction pre with
  | nil =>
    intro _ hv
    simp only [List.nil_append, runChangeValidations, hv, collectRuleErrs,
      List.flatMap_nil, List.nil_append]
    cases h2 : (v d).2 <;> simp [h2]
  | cons u rest ih =>
    intro h hv
    have hu : (u d).1 = false := h u (by simp)
    have hrest := ih (fun w hw => h w (by simp [hw])) hv
    simp only [List.cons_append, runChangeValidations, hu, collectRuleErrs,
      List.flatMap_cons, List.append_assoc]
    simp only [collectRuleErrs] at hrest
    simp [hrest]
    cases h2 : (u d).2 <;> simp

/-! ## Claims about the cross-version validator and the rule loop -/

/-- C1: for every field diff between two distinct-named declared versions
for which no change rule returns `Handled=true`, the cross-version
validator records the hard unknown-change error — which names the two
compared versions and the field path and refuses to determine that the
change is safe — and therefore returns a non-nil joined error: an
unrecognized field change is never silently accepted. -/
theorem c1_unknown_change_never_silent (rules : List ChangeValidation)
    (crd : StructuredDefinition) (vA vB : VersionSchema) (field : String) (diff : FieldDiff)
    (hA : vA ∈ crd.versions) (hB : vB ∈ crd.versions) (hname : vA.name ≠ vB.name)
    (hdiff : (field, diff) ∈ diffCore (FlattenSchema vA.schema) (FlattenSchema vB.schema))
    (hnone : ∀ v ∈ rules, (v diff).1 = false) :
    unknownChangeErr vA.name vB.name field
        ∈ CrossVersionValidator.Validate ⟨rules⟩ crd ∧
      CrossVersionValidator.Validate ⟨rules⟩ crd ≠ [] := by
  have hpair : unknownChangeErr vA.name vB.name field
      ∈ crossVersionPairErrors rules vA vB := by
    unfold crossVersionPairErrors
    rw [if_neg hname]
    simp only [CalculateFlatSchemaDiff]
    refine List.mem_flatMap.mpr ⟨(field, diff), hdiff, ?_⟩
    rw [runChangeValidations_unhandled diff rules hnone]
    simp
  have hmem : unknownChangeErr vA.name vB.name field
      ∈ CrossVersionValidator.Validate ⟨rules⟩ crd := by
    rw [crossVersionValidate_eq]
    exact List.mem_flatMap.mpr ⟨vA, hA, List.mem_flatMap.mpr ⟨vB, hB, hpair⟩⟩
  exact ⟨hmem, List.ne_nil_of_mem hmem⟩

/-- C2: cross-version validation of a definition evaluates exactly the
ordered pairs of declared versions: the result is the concatenation, over
both directions of every pair, of that pair's flatten-diff-rule errors
(which involve only the change rules, no structural check); every error of
the (A,B) direction and of the (B,A) direction is in the result, and a
pair with equal version names contributes nothing. -/
theorem c2_cross_version_both_directions (rules : List ChangeValidation)
    (crd : StructuredDefinition) :
    CrossVersionValidator.Validate ⟨rules⟩ crd
        = crd.versions.flatMap (fun vA =>
            crd.versions.flatMap (fun vB => crossVersionPairErrors rules vA vB)) ∧
      (∀ vA ∈ crd.versions, ∀ vB ∈ crd.versions,
        (∀ e ∈ crossVersionPairErrors rules vA vB,
            e ∈ CrossVersionValidator.Validate ⟨rules⟩ crd) ∧
          (∀ e ∈ crossVersionPairErrors rules vB vA,
            e ∈ CrossVersionValidator.Validate ⟨rules⟩ crd)) ∧
      (∀ vA vB : VersionSchema, vA.name = vB.name →
        crossVersionPairErrors rules vA vB = []) := by
  refine ⟨crossVersionValidate_eq ⟨rules⟩ crd, ?_, ?_⟩
  · intro vA hA vB hB
    constructor
    · intro e he
      rw [crossVersionValidate_eq]
      exact List.mem_flatMap.mpr ⟨vA, hA, List.mem_flatMap.mpr ⟨vB, hB, he⟩⟩
    · intro e he
      rw [crossVersionValidate_eq]
      exact List.mem_flatMap.mpr ⟨vB, hB, List.mem_flatMap.mpr ⟨vA, hA, he⟩⟩
  · intro vA vB hname
    unfold crossVersionPairErrors
    rw [if_pos hname]

/-- C4: the change rules are tried in the fixed declared order; writing
that order as earlier rules, the first handling rule and the rest, if
every earlier rule declines and the given rule handles the diff, the loop
result is exactly the earlier rules' collected errors followed by the
handling rule's error — possibly absent — and the rules after it never
influence the outcome. -/
theorem c4_first_handled_rule_decides (pre post : List ChangeValidation)
    (v : ChangeValidation) (d : FieldDiff)
    (horder : defaultChangeValidations = pre ++ v :: post)
    (hpre : ∀ u ∈ pre, (u d).1 = false) (hv : (v d).1 = true) :
    runChangeValidations defaultChangeValidations d
      = (collectRuleErrs pre d ++ ((v d).2).toList, true) := by
  rw [horder]
  exact runChangeValidations_split post v d pre hpre hv

/-- A field diff that changes only `requiredInParent` from true to false:
the enum rule declines it and the required-field rule accepts it. -/
def c4Diff : FieldDiff :=
  ⟨some ⟨⟨"string", [], none, none, none, none, none, none, none, none, none⟩, true⟩,
    some ⟨⟨"string", [], none, none, none, none, none, none, none, none, none⟩, false⟩⟩

/-- Witness for C4 at a concrete diff: the required-field rule is the
first to handle `c4Diff`, so the loop records its (nil) error and stops. -/
theorem c4_witness :
    runChangeValidations defaultChangeValidations c4Diff = ([], true) := by
  have h := c4_first_handled_rule_decides [EnumChangeValidation]
    [MaximumChangeValidation, MaximumItemsChangeValidation, MaximumLengthChangeValidation,
      MaximumPropertiesChangeValidation, MinimumChangeValidation,
      MinimumItemsChangeValidation, MinimumLengthChangeValidation,
      MinimumPropertiesChangeValidation, DefaultValueChangeValidation]
    RequiredFieldChangeValidation c4Diff rfl (by decide) (by decide)
  rw [h]
  decide

/-- A scalar string schema with no constraints. -/
def schemaString : Schema :=
  .node ⟨"string", [], none, none, none, none, none, none, none, none, none⟩ [] .nil .noItems

/-- A scalar integer schema with no constraints. -/
def schemaInteger : Schema :=
  .node ⟨"integer", [], none, none, none, none, none, none, none, none, none⟩ [] .nil .noItems

/-- A definition declaring two versions whose root fields differ only in
type — a change no rule recognizes. -/
def crdC1 : StructuredDefinition :=
  ⟨"widgets.example.com", .namespaced,
    [⟨"v1", schemaString⟩, ⟨"v2", schemaInteger⟩], ["v1"]⟩

/-- The root field diff of `crdC1` between v1 and v2: a type change from
string to integer. -/
def c1Diff : FieldDiff :=
  ⟨some ⟨⟨"string", [], none, none, none, none, none, none, none, none, none⟩, false⟩,
    some ⟨⟨"integer", [], none, none, none, none, none, none, none, none, none⟩, false⟩⟩

/-- Witness for C1: on `crdC1` the type change of the root field is
handled by no rule, and the cross-version validator records the
unknown-change error for it. -/
theorem c1_witness :
    unknownChangeErr "v1" "v2" "^"
        ∈ CrossVersionValidator.Validate ⟨defaultChangeValidations⟩ crdC1 ∧
      CrossVersionValidator.Validate ⟨defaultChangeValidations⟩ crdC1 ≠ [] :=
  c1_unknown_change_never_silent defaultChangeValidations crdC1
    ⟨"v1", schemaString⟩ ⟨"v2", schemaInteger⟩ "^" c1Diff
    (by simp [crdC1]) (by simp [crdC1]) (by decide) (by decide) (by decide)

/-! ## Claims about Preflight.Upgrade -/

/-- When every CRD's active definition fetch succeeds, the upgrade loop
returns the accumulator followed by each CRD's validation failures. -/
theorem upgradeLoop_all_fetched (fetch : String → Except String StructuredDefinition)
    (old : String → StructuredDefinition) :
    ∀ (objs : List RelObject) (acc : List String),
      (∀ d ∈ crdsOf objs, fetch d.name = .ok (old d.name)) →
      upgradeLoop fetch acc objs
        = .ok (acc ++ (crdsOf objs).flatMap (fun d => perCrdErrors (old d.name) d)) := by
  intro objs
  induction objs with
  | nil => intro acc _; simp [upgradeLoop, crdsOf]
  | cons o rest ih =>
    intro acc h
    cases o with
    | nonCrd =>
      simpa [upgradeLoop, crdsOf] using ih acc (fun c hc => h c (by simpa [crdsOf] using hc))
    | crd d =>
      have hd : fetch d.name = .ok (old d.name) := h d (by simp [crdsOf])
      have hrest := ih (acc ++ perCrdErrors (old d.name) d)
        (fun c hc => h c (by simp [crdsOf, hc]))
      simp [upgradeLoop, hd, crdsOf, hrest, List.append_assoc]

/-- C3: when every proposed CRD's active definition can be fetched, an
Upgrade call returns, joined as one combined result, exactly the
concatenation over every CRD in the proposed release of that CRD's
(active, proposed) validation failures and cross-version validation
failures; every individual failure is in the combined result, and the
result is the nil joined error exactly when no CRD produced any error. -/
theorem c3_upgrade_aggregates_all_failures
    (fetch : String → Except String StructuredDefinition) (r : Release)
    (old : String → StructuredDefinition)
    (h : ∀ d ∈ crdsOf r.objects, fetch d.name = .ok (old d.name)) :
    Preflight.Upgrade fetch (some r)
        = .ok ((crdsOf r.objects).flatMap (fun d => perCrdErrors (old d.name) d)) ∧
      (∀ d ∈ crdsOf r.objects, ∀ e ∈ perCrdErrors (old d.name) d,
        ∀ l, Preflight.Upgrade fetch (some r) = .ok l → e ∈ l) ∧
      (Preflight.Upgrade fetch (some r) = .ok [] ↔
        ∀ d ∈ crdsOf r.objects, perCrdErrors (old d.name) d = []) := by
  have he := upgradeLoop_all_fetched fetch old r.objects [] h
  simp only [List.nil_append] at he
  have hup : Preflight.Upgrade fetch (some r)
      = .ok ((crdsOf r.objects).flatMap (fun d => perCrdErrors (old d.name) d)) := by
    simpa [Preflight.Upgrade] using he
  refine ⟨hup, ?_, ?_⟩
  · intro d hd e hein l hl
    rw [hup] at hl
    cases hl
    exact List.mem_flatMap.mpr ⟨d, hd, hein⟩
  · rw [hup]
    simp [List.flatMap_eq_nil_iff]

/-- The upgrade loop aborts with the fatal fetch error as soon as it
reaches a CRD whose active definition cannot be fetched. -/
theorem upgradeLoop_fetch_failure (fetch : String → Except String StructuredDefinition)
    (old : String → StructuredDefinition) (d : StructuredDefinition) (e : String)
    (rest : List RelObject) (hfail : fetch d.name = .error e) :
    ∀ (pre : List RelObject) (acc : List String),
      (∀ c ∈ crdsOf pre, fetch c.name = .ok (old c.name)) →
      upgradeLoop fetch acc (pre ++ RelObject.crd d :: rest)
        = .error (getCrdErr d.name e) := by
  intro pre
  induction pre with
  | nil => intro acc _; simp [upgradeLoop, hfail]
  | cons o prest ih =>
    intro acc h
    cases o with
    | nonCrd =>
      simpa [upgradeLoop] using ih acc (fun c hc => h c (by simpa [crdsOf] using hc))
    | crd c =>
      have hc : fetch c.name = .ok (old c.name) := h c (by simp [crdsOf])
      simp [upgradeLoop, hc, ih _ (fun w hw => h w (by simp [crdsOf, hw]))]

/-- C5: if the proposed release contains a CRD whose currently active
definition cannot be fetched (the fetches before it succeeding), Upgrade
returns the fatal fetch error for that CRD — it never returns a joined
validation result, so the failure is distinct from a validation
failure. -/
theorem c5_fetch_failure_is_fatal (fetch : String → Except String StructuredDefinition)
    (r : Release) (pre rest : List RelObject) (d : StructuredDefinition) (e : String)
    (old : String → StructuredDefinition)
    (hobjs : r.objects = pre ++ RelObject.crd d :: rest)
    (hpre : ∀ c ∈ crdsOf pre, fetch c.name = .ok (old c.name))
    (hfail : fetch d.name = .error e) :
    Preflight.Upgrade fetch (some r) = .error (getCrdErr d.name e) ∧
      ∀ l, Preflight.Upgrade fetch (some r) ≠ .ok l := by
  have herr : Preflight.Upgrade fetch (some r) = .error (getCrdErr d.name e) := by
    rw [Preflight.Upgrade, hobjs]
    exact upgradeLoop_fetch_failure fetch old d e rest hfail pre [] hpre
  refine ⟨herr, ?_⟩
  intro l hl
  rw [herr] at hl
  cases hl

/-- C9: for a nil proposed release, Upgrade returns the nil joined error
immediately; the result does not depend on the active-definition fetcher
at all, so no definition is fetched and no validation runs. -/
theorem c9_nil_release_is_noop (f g : String → Except String StructuredDefinition) :
    Preflight.Upgrade f none = .ok [] ∧ Preflight.Upgrade f none = Preflight.Upgrade g none :=
  ⟨rfl, rfl⟩

/-! ## Claim C7: no-op upgrades -/

/-- Diffing a flat schema against itself yields no field diff. -/
theorem diffCore_self (l : FlatSchema) : diffCore l l = [] := by
  unfold diffCore
  rw [List.filterMap_eq_nil_iff]
  intro k _
  simp

/-- A key bound in an association list is found by `findVal`. -/
theorem findVal_isSome_of_mem (k : String) (d : FieldDescriptor) :
    ∀ (l : List (String × FieldDescriptor)), (k, d) ∈ l → (findVal k l).isSome := by
  intro l
  induction l with
  | nil => intro h; cases h
  | cons kd rest ih =>
    intro h
    obtain ⟨k2, d2⟩ := kd
    by_cases hk : k2 = k
    · simp [findVal, hk]
    · rcases List.mem_cons.mp h with heq | htail
      · rw [Prod.ext_iff] at heq
        exact absurd heq.1.symm hk
      · simp only [findVal, if_neg hk]
        exact ih htail

/-- A definition whose stored version `v0` is no longer declared:
its schemas are trivially identical to themselves, yet validating it
against itself fails the stored-version structural check. -/
def crdC7 : StructuredDefinition :=
  ⟨"widgets.example.com", .namespaced, [⟨"v1", schemaString⟩], ["v0"]⟩

/-- Counterexample to C7 as stated: for `crdC7` the proposed definition is
identical to the active one — every compared flattened schema pair is
equal — yet the Validator returns a non-nil error (the stored-version
retention check does not depend on the schemas), while the cross-version
validator does return nil. -/
theorem c7_counterexample :
    Validator.Validate crdC7 crdC7 ≠ [] ∧
      CrossVersionValidator.Validate ⟨defaultChangeValidations⟩ crdC7 = [] := by
  decide

/-- C7 (amended): a no-op upgrade is judged safe provided every stored
version is still declared: for any definition whose stored versions all
appear among its declared version names and whose declared versions all
flatten to the same schema, validating it against itself returns nil and
the cross-version validator returns nil.  (The stored-version proviso is
forced: the stored-version structural check is independent of the
schemas, see the counterexample.) -/
theorem c7_noop_upgrade_safe (d : StructuredDefinition)
    (hstored : ∀ v ∈ d.storedVersions, v ∈ versionNames d)
    (hflat : ∀ a ∈ d.versions, ∀ b ∈ d.versions,
      FlattenSchema a.schema = FlattenSchema b.schema) :
    Validator.Validate d d = [] ∧
      CrossVersionValidator.Validate ⟨defaultChangeValidations⟩ d = [] := by
  constructor
  · unfold Validator.Validate
    have h1 : NoScopeChange d d = [] := by simp [NoScopeChange]
    have h2 : NoStoredVersionRemoved d d = [] := by
      unfold NoStoredVersionRemoved
      rw [List.filterMap_eq_nil_iff]
      intro v hv
      rw [if_pos (hstored v hv)]
    have h3 : NoExistingFieldRemoved d d = [] := by
      unfold NoExistingFieldRemoved
      rw [List.flatMap_eq_nil_iff]
      intro nv hnv
      cases hf : findVersion d nv.name with
      | none => rfl
      | some ov =>
        have hov : ov ∈ d.versions := List.mem_of_find?_eq_some hf
        have heq : FlattenSchema ov.schema = FlattenSchema nv.schema :=
          hflat ov hov nv hnv
        rw [List.filterMap_eq_nil_iff]
        intro kd hkd
        rw [heq] at hkd
        rw [if_pos]
        exact findVal_isSome_of_mem kd.1 kd.2 (FlattenSchema nv.schema) hkd
    have h4 : changeValidatorErrors defaultChangeValidations d d = [] := by
      unfold changeValidatorErrors
      rw [List.flatMap_eq_nil_iff]
      intro nv hnv
      cases hf : findVersion d nv.name with
      | none => rfl
      | some ov =>
        have hov : ov ∈ d.versions := List.mem_of_find?_eq_some hf
        have heq : FlattenSchema ov.schema = FlattenSchema nv.schema :=
          hflat ov hov nv hnv
        simp only [CalculateFlatSchemaDiff, heq, diffCore_self]
        rfl
    rw [h1, h2, h3, h4]
    rfl
  · rw [crossVersionValidate_eq, List.flatMap_eq_nil_iff]
    intro vA hA
    rw [List.flatMap_eq_nil_iff]
    intro vB hB
    unfold crossVersionPairErrors
    by_cases hn : vA.name = vB.name
    · rw [if_pos hn]
    · rw [if_neg hn]
      simp only [CalculateFlatSchemaDiff, hflat vA hA vB hB, diffCore_self]
      rfl

/-- Witness for the amended C7 on a concrete single-version definition
that keeps its stored version declared. -/
theorem c7_witness :
    Validator.Validate ⟨"gadgets.example.com", .namespaced, [⟨"v1", schemaString⟩], ["v1"]⟩
        ⟨"gadgets.example.com", .namespaced, [⟨"v1", schemaString⟩], ["v1"]⟩ = [] ∧
      CrossVersionValidator.Validate ⟨defaultChangeValidations⟩
        ⟨"gadgets.example.com", .namespaced, [⟨"v1", schemaString⟩], ["v1"]⟩ = [] :=
  c7_noop_upgrade_safe
    ⟨"gadgets.example.com", .namespaced, [⟨"v1", schemaString⟩], ["v1"]⟩
    (by decide) (by decide)

/-- A single-version definition used as concrete input. -/
def crdSimple : StructuredDefinition :=
  ⟨"gadgets.example.com", .namespaced, [⟨"v1", schemaString⟩], ["v1"]⟩

/-- A release proposing one non-CRD object and one CRD. -/
def relC3 : Release := ⟨"my-release", [RelObject.nonCrd, RelObject.crd crdSimple]⟩

/-- A fetcher whose every lookup returns `crdSimple`. -/
def fetchOk : String → Except String StructuredDefinition := fun _ => .ok crdSimple

/-- Witness for C3 on a concrete release whose single CRD's fetch
succeeds. -/
theorem c3_witness :
    Preflight.Upgrade fetchOk (some relC3)
        = .ok ((crdsOf relC3.objects).flatMap (fun d =>
            perCrdErrors ((fun _ => crdSimple) d.name) d)) ∧
      (∀ d ∈ crdsOf relC3.objects, ∀ e ∈ perCrdErrors ((fun _ => crdSimple) d.name) d,
        ∀ l, Preflight.Upgrade fetchOk (some relC3) = .ok l → e ∈ l) ∧
      (Preflight.Upgrade fetchOk (some relC3) = .ok [] ↔
        ∀ d ∈ crdsOf relC3.objects, perCrdErrors ((fun _ => crdSimple) d.name) d = []) :=
  c3_upgrade_aggregates_all_failures fetchOk relC3 (fun _ => crdSimple)
    (fun _ _ => rfl)

/-- A release proposing a single CRD. -/
def relC5 : Release := ⟨"my-release", [RelObject.crd crdSimple]⟩

/-- A fetcher whose every lookup fails. -/
def fetchFail : String → Except String StructuredDefinition := fun _ => .error "not found"

/-- Witness for C5 on a concrete release whose CRD's fetch fails. -/
theorem c5_witness :
    Preflight.Upgrade fetchFail (some relC5)
        = .error (getCrdErr crdSimple.name "not found") ∧
      ∀ l, Preflight.Upgrade fetchFail (some relC5) ≠ .ok l :=
  c5_fetch_failure_is_fatal fetchFail relC5 [] [] crdSimple "not found"
    (fun _ => crdSimple) rfl (fun c hc => by cases hc) rfl

/-! ## Claims about the applier's preflight dispatch -/

/-- In the Unchanged state the dispatch loop invokes nothing and reports
no error. -/
theorem runPreflightsAux_unchanged (ext : ClusterExtension) :
    ∀ (ps : List PreflightCheck) (i : Nat),
      runPreflightsAux ext .unchanged i ps = ([], none) := by
  intro ps
  induction ps with
  | nil => intro i; rfl
  | cons p rest ih =>
    intro i
    unfold runPreflightsAux
    by_cases hs : shouldSkipPreflight ext p
    · simp [hs, ih]
    · simp [hs, ih]

/-- In the Error state the dispatch loop invokes nothing and reports no
error (the applier never reaches the loop in that state, having returned
the error already). -/
theorem runPreflightsAux_stateError (ext : ClusterExtension) :
    ∀ (ps : List PreflightCheck) (i : Nat),
      runPreflightsAux ext .stateError i ps = ([], none) := by
  intro ps
  induction ps with
  | nil => intro i; rfl
  | cons p rest ih =>
    intro i
    unfold runPreflightsAux
    by_cases hs : shouldSkipPreflight ext p
    · simp [hs, ih]
    · simp [hs, ih]

/-- In the NeedsInstall state every invocation the loop performs is an
Install invocation. -/
theorem runPreflightsAux_install_ops (ext : ClusterExtension) :
    ∀ (ps : List PreflightCheck) (i : Nat),
      ∀ inv ∈ (runPreflightsAux ext .needsInstall i ps).1, inv.2 = PreflightOp.install := by
  intro ps
  induction ps with
  | nil => intro i inv h; cases h
  | cons p rest ih =>
    intro i inv h
    unfold runPreflightsAux at h
    by_cases hs : shouldSkipPreflight ext p
    · rw [if_pos hs] at h
      exact ih (i + 1) inv h
    · rw [if_neg hs] at h
      cases he : p.installErr with
      | some e =>
        rw [he] at h
        simp at h
        rw [h]
      | none =>
        rw [he] at h
        simp at h
        rcases h with h | h
        · rw [h]
        · exact ih (i + 1) inv h

/-- In the NeedsUpgrade state every invocation the loop performs is an
Upgrade invocation. -/
theorem runPreflightsAux_upgrade_ops (ext : ClusterExtension) :
    ∀ (ps : List PreflightCheck) (i : Nat),
      ∀ inv ∈ (runPreflightsAux ext .needsUpgrade i ps).1, inv.2 = PreflightOp.upgrade := by
  intro ps
  induction ps with
  | nil => intro i inv h; cases h
  | cons p rest ih =>
    intro i inv h
    unfold runPreflightsAux at h
    by_cases hs : shouldSkipPreflight ext p
    · rw [if_pos hs] at h
      exact ih (i + 1) inv h
    · rw [if_neg hs] at h
      cases he : p.upgradeErr with
      | some e =>
        rw [he] at h
        simp at h
        rw [h]
      | none =>
        rw [he] at h
        simp at h
        rcases h with h | h
        · rw [h]
        · exact ih (i + 1) inv h

/-- C10: the applier invokes preflight checks only for the NeedsInstall
state (Install invocations) or the NeedsUpgrade state (Upgrade
invocations); in the Unchanged state no preflight operation is invoked at
all and the release action is a direct reconcile (and in the error state,
which never reaches the loop, nothing is invoked either). -/
theorem c10_preflights_only_for_install_or_upgrade (ext : ClusterExtension)
    (ps : List PreflightCheck) :
    runPreflights ext .unchanged ps = ([], none) ∧
      applyAction .unchanged = .reconcile ∧
      runPreflights ext .stateError ps = ([], none) ∧
      (∀ inv ∈ (runPreflights ext .needsInstall ps).1, inv.2 = PreflightOp.install) ∧
      (∀ inv ∈ (runPreflights ext .needsUpgrade ps).1, inv.2 = PreflightOp.upgrade) :=
  ⟨runPreflightsAux_unchanged ext ps 0, rfl, runPreflightsAux_stateError ext ps 0,
    runPreflightsAux_install_ops ext ps 0, runPreflightsAux_upgrade_ops ext ps 0⟩

/-- Every invocation performed by the dispatch loop points at a preflight
of the list that was not skipped, at its position counted from the loop's
starting index. -/
theorem runPreflightsAux_mem_not_skipped (ext : ClusterExtension) (state : ReleaseState) :
    ∀ (ps : List PreflightCheck) (i : Nat),
      ∀ inv ∈ (runPreflightsAux ext state i ps).1,
        i ≤ inv.1 ∧ ∃ p, ps.get? (inv.1 - i) = some p ∧ shouldSkipPreflight ext p = false := by
  intro ps
  induction ps with
  | nil => intro i inv h; cases h
  | cons p rest ih =>
    intro i inv h
    unfold runPreflightsAux at h
    by_cases hs : shouldSkipPreflight ext p
    · rw [if_pos hs] at h
      obtain ⟨hle, q, hq, hq2⟩ := ih (i + 1) inv h
      refine ⟨by omega, q, ?_, hq2⟩
      have : inv.1 - i = (inv.1 - (i + 1)) + 1 := by omega
      rw [this, List.get?_cons_succ]
      exact hq
    · rw [if_neg hs] at h
      have hhead : inv = (i, PreflightOp.install) ∨ inv = (i, PreflightOp.upgrade) ∨
          inv ∈ (runPreflightsAux ext state (i + 1) rest).1 := by
        cases state with
        | needsInstall =>
          cases he : p.installErr with
          | some e => rw [he] at h; simp at h; exact Or.inl h
          | none =>
            rw [he] at h
            simp at h
            rcases h with h | h
            · exact Or.inl h
            · exact Or.inr (Or.inr h)
        | needsUpgrade =>
          cases he : p.upgradeErr with
          | some e => rw [he] at h; simp at h; exact Or.inr (Or.inl h)
          | none =>
            rw [he] at h
            simp at h
            rcases h with h | h
            · exact Or.inr (Or.inl h)
            · exact Or.inr (Or.inr h)
        | unchanged => exact Or.inr (Or.inr h)
        | stateError => exact Or.inr (Or.inr h)
      rcases hhead with rfl | rfl | htail
      · exact ⟨le_refl i, p, by simp, by simpa using hs⟩
      · exact ⟨le_refl i, p, by simp, by simpa using hs⟩
      · obtain ⟨hle, q, hq, hq2⟩ := ih (i + 1) inv htail
        refine ⟨by omega, q, ?_, hq2⟩
        have : inv.1 - i = (inv.1 - (i + 1)) + 1 := by omega
        rw [this, List.get?_cons_succ]
        exact hq

/-- In the NeedsInstall state, if no preflight's Install fails, every
non-skipped preflight of the list is invoked at its position. -/
theorem runPreflightsAux_installs_all (ext : ClusterExtension) :
    ∀ (ps : List PreflightCheck) (i : Nat), (∀ p ∈ ps, p.installErr = none) →
      ∀ (j : Nat) (p : PreflightCheck), ps.get? j = some p →
        shouldSkipPreflight ext p = false →
        (i + j, PreflightOp.install) ∈ (runPreflightsAux ext .needsInstall i ps).1 := by
  intro ps
  induction ps with
  | nil => intro i _ j p hj; cases hj
  | cons q rest ih =>
    intro i h j p hj hskip
    cases j with
    | zero =>
      rw [List.get?_cons_zero] at hj
      cases hj
      unfold runPreflightsAux
      rw [if_neg (by simp [hskip]), h q (by simp)]
      simp
    | succ j2 =>
      rw [List.get?_cons_succ] at hj
      have hmem := ih (i + 1) (fun w hw => h w (by simp [hw])) j2 p hj hskip
      have harith : i + (j2 + 1) = (i + 1) + j2 := by omega
      unfold runPreflightsAux
      by_cases hs : shouldSkipPreflight ext q
      · rw [if_pos hs, harith]
        exact hmem
      · rw [if_neg hs, h q (by simp)]
        simp only [harith]
        simp [hmem]

/-- In the NeedsUpgrade state, if no preflight's Upgrade fails, every
non-skipped preflight of the list is invoked at its position. -/
theorem runPreflightsAux_upgrades_all (ext : ClusterExtension) :
    ∀ (ps : List PreflightCheck) (i : Nat), (∀ p ∈ ps, p.upgradeErr = none) →
      ∀ (j : Nat) (p : PreflightCheck), ps.get? j = some p →
        shouldSkipPreflight ext p = false →
        (i + j, PreflightOp.upgrade) ∈ (runPreflightsAux ext .needsUpgrade i ps).1 := by
  intro ps
  induction ps with
  | nil => intro i _ j p hj; cases hj
  | cons q rest ih =>
    intro i h j p hj hskip
    cases j with
    | zero =>
      rw [List.get?_cons_zero] at hj
      cases hj
      unfold runPreflightsAux
      rw [if_neg (by simp [hskip]), h q (by simp)]
      simp
    | succ j2 =>
      rw [List.get?_cons_succ] at hj
      have hmem := ih (i + 1) (fun w hw => h w (by simp [hw])) j2 p hj hskip
      have harith : i + (j2 + 1) = (i + 1) + j2 := by omega
      unfold runPreflightsAux
      by_cases hs : shouldSkipPreflight ext q
      · rw [if_pos hs, harith]
        exact hmem
      · rw [if_neg hs, h q (by simp)]
        simp only [harith]
        simp [hmem]

/-- With the CRD upgrade-safety check disabled for the extension, a
preflight is skipped exactly when it is the CRD upgrade-safety
preflight. -/
theorem shouldSkip_of_disabled (ext : ClusterExtension) (cfg : PreflightConfig)
    (c : CRDUpgradeSafetyConfig) (p : PreflightCheck) (hcfg : ext.preflight = some cfg)
    (hc : cfg.crdUpgradeSafety = some c) (hdis : c.disabled = true) :
    shouldSkipPreflight ext p = p.isCrdUpgradeSafety := by
  simp [shouldSkipPreflight, hcfg, hc, hdis]

/-- C6: when the extension's configuration disables the CRD upgrade-safety
preflight, the dispatch loop never invokes an Install or Upgrade operation
of a preflight of that type — in any release state — while, whenever the
state calls for preflights and no preflight fails, every other configured
preflight is still invoked at its position. -/
theorem c6_disabled_crd_safety_never_invoked (ext : ClusterExtension)
    (cfg : PreflightConfig) (c : CRDUpgradeSafetyConfig) (ps : List PreflightCheck)
    (state : ReleaseState) (hcfg : ext.preflight = some cfg)
    (hc : cfg.crdUpgradeSafety = some c) (hdis : c.disabled = true) :
    (∀ inv ∈ (runPreflights ext state ps).1, ∀ p, ps.get? inv.1 = some p →
        p.isCrdUpgradeSafety = false) ∧
      ((∀ p ∈ ps, p.installErr = none) →
        ∀ (j : Nat) (p : PreflightCheck), ps.get? j = some p →
          p.isCrdUpgradeSafety = false →
          (j, PreflightOp.install) ∈ (runPreflights ext .needsInstall ps).1) ∧
      ((∀ p ∈ ps, p.upgradeErr = none) →
        ∀ (j : Nat) (p : PreflightCheck), ps.get? j = some p →
          p.isCrdUpgradeSafety = false →
          (j, PreflightOp.upgrade) ∈ (runPreflights ext .needsUpgrade ps).1) := by
  refine ⟨?_, ?_, ?_⟩
  · intro inv hinv p hp
    obtain ⟨_, q, hq, hq2⟩ := runPreflightsAux_mem_not_skipped ext state ps 0 inv hinv
    rw [Nat.sub_zero] at hq
    rw [hp] at hq
    have hpq : p = q := Option.some.inj hq
    rw [hpq]
    rw [shouldSkip_of_disabled ext cfg c q hcfg hc hdis] at hq2
    exact hq2
  · intro h j p hj hcrd
    have := runPreflightsAux_installs_all ext ps 0 h j p hj
      (by rw [shouldSkip_of_disabled ext cfg c p hcfg hc hdis]; exact hcrd)
    simpa using this
  · intro h j p hj hcrd
    have := runPreflightsAux_upgrades_all ext ps 0 h j p hj
      (by rw [shouldSkip_of_disabled ext cfg c p hcfg hc hdis]; exact hcrd)
    simpa using this

/-- An extension whose configuration disables the CRD upgrade-safety
preflight. -/
def extC6 : ClusterExtension := ⟨some ⟨some ⟨true⟩⟩⟩

/-- Two configured preflights: the CRD upgrade-safety one and another. -/
def psC6 : List PreflightCheck := [⟨true, none, none⟩, ⟨false, none, none⟩]

/-- Witness for C6 on a concrete extension and preflight list in the
NeedsUpgrade state. -/
theorem c6_witness :
    (∀ inv ∈ (runPreflights extC6 .needsUpgrade psC6).1, ∀ p, psC6.get? inv.1 = some p →
        p.isCrdUpgradeSafety = false) ∧
      ((∀ p ∈ psC6, p.installErr = none) →
        ∀ (j : Nat) (p : PreflightCheck), psC6.get? j = some p →
          p.isCrdUpgradeSafety = false →
          (j, PreflightOp.install) ∈ (runPreflights extC6 .needsInstall psC6).1) ∧
      ((∀ p ∈ psC6, p.upgradeErr = none) →
        ∀ (j : Nat) (p : PreflightCheck), psC6.get? j = some p →
          p.isCrdUpgradeSafety = false →
          (j, PreflightOp.upgrade) ∈ (runPreflights extC6 .needsUpgrade psC6).1) :=
  c6_disabled_crd_safety_never_invoked extC6 ⟨some ⟨true⟩⟩ ⟨true⟩ psC6 .needsUpgrade
    rfl rfl rfl

/-! ## Claim C8: bundle resolution -/

/-- The deprecation order is total. -/
theorem byDeprecated_total (a b : Bundle) : (byDeprecated a b || byDeprecated b a) = true := by
  unfold byDeprecated
  cases a.deprecated <;> cases b.deprecated <;> rfl

/-- The deprecation order is transitive. -/
theorem byDeprecated_trans (a b c : Bundle) :
    byDeprecated a b = true → byDeprecated b c = true → byDeprecated a c = true := by
  unfold byDeprecated
  cases a.deprecated <;> cases b.deprecated <;> cases c.deprecated <;> simp

/-- C8: a successfully resolved bundle matches the package name, lies in
the channel whenever one was specified and in the semver range whenever
one was specified, and — because the candidate set is sorted by version
and then stably by deprecation status before the head is taken — it is
deprecated only when every remaining candidate is deprecated. -/
theorem c8_resolve_filters_and_deprecation (allBundles : List Bundle) (pkg channel : String)
    (range : Option (Nat → Bool)) (successor : Option (Bundle → Bool))
    (validations : List (Bundle → Option String)) (b : Bundle)
    (h : Resolver.Resolve allBundles pkg channel range successor validations = .ok b) :
    b.package = pkg ∧
      (channel ≠ "" → b.channels.contains channel = true) ∧
      (∀ r, range = some r → r b.version = true) ∧
      (b.deprecated = true →
        ∀ c ∈ filterBundles allBundles (resolvePredicates pkg channel range successor),
          c.deprecated = true) := by
  simp only [Resolver.Resolve] at h
  split at h
  case h_1 hsort => cases h
  case h_2 resolved t hsort =>
    split at h
    case h_1 e hv => cases h
    case h_2 hv =>
      obtain rfl : resolved = b := Except.ok.inj h
      have perm1 := List.mergeSort_perm
        (filterBundles allBundles (resolvePredicates pkg channel range successor)) byVersion
      have perm2 := List.mergeSort_perm
        ((filterBundles allBundles (resolvePredicates pkg channel range successor)).mergeSort
          byVersion) byDeprecated
      have hbsort : resolved ∈ ((filterBundles allBundles
          (resolvePredicates pkg channel range successor)).mergeSort byVersion).mergeSort
            byDeprecated := by
        rw [hsort]
        exact List.mem_cons_self resolved t
      have hbres : resolved ∈ filterBundles allBundles
          (resolvePredicates pkg channel range successor) :=
        perm1.mem_iff.mp (perm2.mem_iff.mp hbsort)
      have hall : ∀ p ∈ resolvePredicates pkg channel range successor, p resolved = true := by
        have := (List.mem_filter.mp hbres).2
        simpa [andPredicates, List.all_eq_true] using this
      refine ⟨?_, ?_, ?_, ?_⟩
      · have hp := hall (withPackageName pkg) (by simp [resolvePredicates])
        simpa [withPackageName] using hp
      · intro hch
        have hp := hall (inChannel channel) (by simp [resolvePredicates, hch])
        simpa [inChannel] using hp
      · intro r hr
        subst hr
        have hp := hall (inSemverRange r) (by simp [resolvePredicates])
        simpa [inSemverRange] using hp
      · intro hdep c hc
        have hcs : c ∈ ((filterBundles allBundles
            (resolvePredicates pkg channel range successor)).mergeSort byVersion).mergeSort
              byDeprecated :=
          perm2.mem_iff.mpr (perm1.mem_iff.mpr hc)
        rw [hsort] at hcs
        rcases List.mem_cons.mp hcs with rfl | hct
        · exact hdep
        · have hsorted := List.sorted_mergeSort
            (fun x y z => byDeprecated_trans x y z)
            (fun x y => byDeprecated_total x y)
            ((filterBundles allBundles
              (resolvePredicates pkg channel range successor)).mergeSort byVersion)
          rw [hsort] at hsorted
          have hbc := List.rel_of_pairwise_cons hsorted hct
          unfold byDeprecated at hbc
          rw [hdep] at hbc
          simpa using hbc

/-- A concrete candidate bundle. -/
def bWit : Bundle := ⟨"argocd-bundle-1", "argocd", ["stable"], 5, false⟩

/-- A concrete parsed version range. -/
def rangeWit : Nat → Bool := fun v => decide (1 ≤ v)

/-- Witness for C8 on a concrete one-bundle catalog. -/
theorem c8_witness :
    bWit.package = "argocd" ∧
      ("stable" ≠ "" → bWit.channels.contains "stable" = true) ∧
      (∀ r, (some rangeWit : Option (Nat → Bool)) = some r → r bWit.version = true) ∧
      (bWit.deprecated = true →
        ∀ c ∈ filterBundles [bWit] (resolvePredicates "argocd" "stable" (some rangeWit) none),
          c.deprecated = true) := by
  have hfil : filterBundles [bWit]
      (resolvePredicates "argocd" "stable" (some rangeWit) none) = [bWit] := by decide
  have h : Resolver.Resolve [bWit] "argocd" "stable" (some rangeWit) none [] = .ok bWit := by
    simp only [Resolver.Resolve, hfil, List.mergeSort_singleton]
    rfl
  exact c8_resolve_filters_and_deprecation [bWit] "argocd" "stable" (some rangeWit) none []
    bWit h

end OperatorController
